import Mathlib

/-!
Shallow embedding of the scoreboard state & ranking engine of
`src/group-server.js` (SPOT-GAME repository), together with proofs of the
spec's claims about it.

Modelling conventions:
* JavaScript numbers are modelled by `JsNum`: either a finite value
  (represented as a rational), a non-finite value (`NaN`, `±Infinity`),
  or `missing` (the field is absent / `undefined`).
* Strings are Lean `String`s; `String.prototype.trim` is modelled by
  `jsTrim` and `slice(0, 28)` by `jsTake _ 28`, both defined by
  structural recursion on the character list so that concrete instances
  evaluate.
* `localeCompare(_, 'he')` is an external Intl collation call; it is
  modelled by deterministic code-point lexicographic comparison
  (`lexCmp`), which shares the shape that matters for the claims:
  it returns a sign, equal strings compare equal, and it is a total
  order in the model.
* Wall-clock time (`nowIso()`) is passed explicitly as a `now : String`
  argument.
* The file-system write in `persistState` is modelled by returning the
  payload value that is written; the durable read in `loadState` is
  modelled by taking the parsed participant list as input.
-/

namespace SpotGame

/-- Model of a JavaScript numeric field value: a finite number, a
non-finite number (`NaN` / `±Infinity`), or an absent (`undefined`)
field. -/
inductive JsNum where
  | fin (q : ℚ)
  | nonfinite
  | missing
  deriving DecidableEq, Repr

/-- Embedding of `safeNum(value, fallback)` from `group-server.js`:
`Number(value)` is finite → that value, otherwise the fallback.
`Number(undefined)` is `NaN`, so `missing` also falls back. -/
def safeNum (v : JsNum) (fallback : ℚ) : ℚ :=
  match v with
  | .fin q => q
  | .nonfinite => fallback
  | .missing => fallback

/-- The common call pattern `safeNum(value)` with the default fallback 0. -/
def safeNum0 (v : JsNum) : ℚ := safeNum v 0

/-- Removal of leading and trailing whitespace from a character list;
the list-level model of `String.prototype.trim()`. -/
def trimChars (l : List Char) : List Char :=
  ((l.dropWhile Char.isWhitespace).reverse.dropWhile Char.isWhitespace).reverse

/-- Model of `String.prototype.trim()` (JavaScript trims WhiteSpace and
LineTerminator characters; the model uses `Char.isWhitespace`). -/
def jsTrim (s : String) : String := ⟨trimChars s.data⟩

/-- Model of `.slice(0, n)` on a string: the first `n` characters. -/
def jsTake (s : String) (n : Nat) : String := ⟨s.data.take n⟩

/-- Embedding of `cleanName(value)`: `String(value || '').trim().slice(0, 28)`.
The input is `none` when the field is absent (`undefined`). -/
def cleanName (v : Option String) : String :=
  jsTake (jsTrim (v.getD "")) 28

/-- Three-way comparison of two character lists in code-point
lexicographic order; model of the external locale collator (see the
module docstring). -/
def lexCmp : List Char → List Char → Int
  | [], [] => 0
  | [], _ :: _ => -1
  | _ :: _, [] => 1
  | a :: as, b :: bs =>
      if a < b then -1 else if b < a then 1 else lexCmp as bs

/-- Model of `String.prototype.localeCompare(other, 'he')` as used in
`scoreSort`; deterministic code-point order stands in for the Intl
collation. -/
def localeCompareHe (s t : String) : Int :=
  lexCmp s.data t.data

/-- One participant record of the registry (`state.participants[id]`).
Numeric fields carry `JsNum` so that the comparator's handling of
non-finite or missing values is statable. -/
structure Participant where
  id : String
  name : String
  totalMistakes : JsNum
  roundMistakes : JsNum
  completedRounds : JsNum
  totalFound : JsNum
  lastRoundMs : JsNum
  bestRoundMs : JsNum
  currentMiniGame : String
  currentMiniGameIndex : JsNum
  updatedAt : String
  deriving DecidableEq, Repr

/-- Embedding of the ranking comparator `scoreSort(a, b)`:
`completedRounds` descending, then `totalMistakes` ascending, then
locale comparison of the names. -/
def scoreSort (a b : Participant) : ℚ :=
  let roundsDiff := safeNum0 b.completedRounds - safeNum0 a.completedRounds
  if roundsDiff ≠ 0 then roundsDiff
  else
    let mistakesDiff := safeNum0 a.totalMistakes - safeNum0 b.totalMistakes
    if mistakesDiff ≠ 0 then mistakesDiff
    else ((localeCompareHe a.name b.name : Int) : ℚ)

/-- The registry is modelled as the list of records of
`state.participants` in object-key insertion order (JavaScript string
keys preserve insertion order). -/
def Registry := List Participant

/-- Boolean form of the comparator used when sorting:
`scoreSort a b ≤ 0` places `a` no later than `b`. -/
def scoreLe (a b : Participant) : Bool :=
  decide (scoreSort a b ≤ 0)

/-- Embedding of `participantsList()` applied to a registry value:
`Object.values(state.participants).sort(scoreSort)`. JavaScript's
`Array.prototype.sort` is stable, modelled by `List.mergeSort`. -/
def participantsList (reg : List Participant) : List Participant :=
  reg.mergeSort scoreLe

/-- A stats patch as read from the request body `body.stats`: a sparse
JSON object. `none` / `JsNum.missing` model an absent (`undefined`)
field; the code tests presence with `!== undefined`. -/
structure StatsPatch where
  name : Option String
  currentMiniGame : Option String
  currentMiniGameIndex : JsNum
  totalMistakes : JsNum
  roundMistakes : JsNum
  completedRounds : JsNum
  totalFound : JsNum
  lastRoundMs : JsNum
  bestRoundMs : JsNum
  deriving DecidableEq, Repr

/-- The all-absent patch `{}`. -/
def emptyPatch : StatsPatch :=
  { name := none
    currentMiniGame := none
    currentMiniGameIndex := .missing
    totalMistakes := .missing
    roundMistakes := .missing
    completedRounds := .missing
    totalFound := .missing
    lastRoundMs := .missing
    bestRoundMs := .missing }

/-- Embedding of `normalizeStatsPatch(existing, patch)`: the source
copies `existing` into `next` and then performs one guarded assignment
per patch field (`if (patch.f !== undefined) next.f = ...`, and for the
name `if (name) next.name = name` after cleaning); each assignment
targets a distinct field and no guard reads `next`, so the sequence is
rendered as one record literal, field by field, finishing with the
unconditional `next.updatedAt = nowIso()`. -/
def normalizeStatsPatch (existing : Participant) (patch : StatsPatch)
    (now : String) : Participant :=
  { id := existing.id
    name := if cleanName patch.name = "" then existing.name else cleanName patch.name
    currentMiniGame :=
      match patch.currentMiniGame with
      | some v => v
      | none => existing.currentMiniGame
    currentMiniGameIndex :=
      if patch.currentMiniGameIndex = .missing then existing.currentMiniGameIndex
      else .fin (safeNum0 patch.currentMiniGameIndex)
    totalMistakes :=
      if patch.totalMistakes = .missing then existing.totalMistakes
      else .fin (max 0 (safeNum0 patch.totalMistakes))
    roundMistakes :=
      if patch.roundMistakes = .missing then existing.roundMistakes
      else .fin (max 0 (safeNum0 patch.roundMistakes))
    completedRounds :=
      if patch.completedRounds = .missing then existing.completedRounds
      else .fin (max 0 (safeNum0 patch.completedRounds))
    totalFound :=
      if patch.totalFound = .missing then existing.totalFound
      else .fin (max 0 (safeNum0 patch.totalFound))
    lastRoundMs :=
      if patch.lastRoundMs = .missing then existing.lastRoundMs
      else .fin (max 0 (safeNum0 patch.lastRoundMs))
    bestRoundMs :=
      if patch.bestRoundMs = .missing then existing.bestRoundMs
      else .fin (max 0 (safeNum0 patch.bestRoundMs))
    updatedAt := now }

/-- Errors surfaced by the API handlers. -/
inductive ApiError where
  | nameRequired
  | participantNotFound
  deriving DecidableEq, Repr

/-- Insertion `state.participants[id] = p`: replace in place when the
id is already a key (JavaScript objects keep the original key position),
append otherwise. -/
def insertP (reg : List Participant) (p : Participant) : List Participant :=
  if reg.any (fun q => q.id = p.id) then
    reg.map (fun q => if q.id = p.id then p else q)
  else reg ++ [p]

/-- Embedding of the `POST /group-api/join` handler body: clean the
name, reject an empty result with `name_required`, otherwise create a
zero-initialised record under a freshly generated id, insert it and
persist. `newId` stands for the value of `createId()` (an external
random generator); the second component is the registry after the call,
the third records whether `persistState()` ran. -/
def join (reg : List Participant) (nameInput : Option String)
    (newId : String) (now : String) :
    Except ApiError Participant × List Participant × Bool :=
  let name := cleanName nameInput
  if name = "" then (.error .nameRequired, reg, false)
  else
    let participant : Participant :=
      { id := newId
        name := name
        totalMistakes := .fin 0
        roundMistakes := .fin 0
        completedRounds := .fin 0
        totalFound := .fin 0
        lastRoundMs := .fin 0
        bestRoundMs := .fin 0
        currentMiniGame := ""
        currentMiniGameIndex := .fin 0
        updatedAt := now }
    (.ok participant, insertP reg participant, true)

/-- Embedding of the `POST /group-api/update` handler body:
`id = String(body.id || '').trim()`; unknown or empty ids give
`participant_not_found`; `body.stats` that is absent, `null` or not an
object (`none` here) degrades to the empty patch; on success the
patched record replaces the old one and `persistState()` runs (third
component). -/
def update (reg : List Participant) (idInput : Option String)
    (stats : Option StatsPatch) (now : String) :
    Except ApiError Participant × List Participant × Bool :=
  let id := jsTrim (idInput.getD "")
  match reg.find? (fun p => p.id = id) with
  | none => (.error .participantNotFound, reg, false)
  | some existing =>
    if id = "" then (.error .participantNotFound, reg, false)
    else
      let patched := normalizeStatsPatch existing (stats.getD emptyPatch) now
      (.ok patched, insertP reg patched, true)

/-- The durable record written by `persistState()`:
`{ updatedAt: nowIso(), participants: participantsList() }`. -/
structure Payload where
  updatedAt : String
  participants : List Participant
  deriving DecidableEq, Repr

/-- Embedding of `persistState()`: the payload value serialised to the
data file (the write itself and the HTML mirror are I/O). -/
def persistState (reg : List Participant) (now : String) : Payload :=
  { updatedAt := now, participants := participantsList reg }

/-- One entry of the parsed persisted participant list, before
validation: every field may be absent or, for the numeric ones,
non-finite. -/
structure RawRow where
  id : Option String
  name : Option String
  totalMistakes : JsNum
  roundMistakes : JsNum
  completedRounds : JsNum
  totalFound : JsNum
  lastRoundMs : JsNum
  bestRoundMs : JsNum
  currentMiniGame : Option String
  currentMiniGameIndex : JsNum
  updatedAt : Option String
  deriving DecidableEq, Repr

/-- Validation and normalisation of one persisted entry inside
`loadState`'s `forEach`: require a non-empty trimmed id and a name
surviving `cleanName`, pass every numeric field through `safeNum`, and
keep the stored `updatedAt` unless it is falsy (`row.updatedAt || nowIso()`). -/
def loadRow (row : RawRow) (now : String) : Option Participant :=
  let id := jsTrim (row.id.getD "")
  let name := cleanName row.name
  if id = "" ∨ name = "" then none
  else some
    { id := id
      name := name
      totalMistakes := .fin (safeNum0 row.totalMistakes)
      roundMistakes := .fin (safeNum0 row.roundMistakes)
      completedRounds := .fin (safeNum0 row.completedRounds)
      totalFound := .fin (safeNum0 row.totalFound)
      lastRoundMs := .fin (safeNum0 row.lastRoundMs)
      bestRoundMs := .fin (safeNum0 row.bestRoundMs)
      currentMiniGame := row.currentMiniGame.getD ""
      currentMiniGameIndex := .fin (safeNum0 row.currentMiniGameIndex)
      updatedAt :=
        match row.updatedAt with
        | some s => if s = "" then now else s
        | none => now }

/-- Embedding of `loadState()` applied to a present and parsable
durable record: starting from the empty registry, each entry of the
persisted list is validated and inserted in order; invalid entries are
skipped. -/
def loadState (rows : List RawRow) (now : String) : List Participant :=
  rows.foldl
    (fun reg row =>
      match loadRow row now with
      | some p => insertP reg p
      | none => reg)
    []

/-- Serialisation of an in-memory record back to a parsed persisted
entry: `JSON.stringify` writes each present field as-is (faithful for
records whose numeric fields are finite, which the round-trip theorem
assumes). -/
def toRaw (p : Participant) : RawRow :=
  { id := some p.id
    name := some p.name
    totalMistakes := p.totalMistakes
    roundMistakes := p.roundMistakes
    completedRounds := p.completedRounds
    totalFound := p.totalFound
    lastRoundMs := p.lastRoundMs
    bestRoundMs := p.bestRoundMs
    currentMiniGame := some p.currentMiniGame
    currentMiniGameIndex := p.currentMiniGameIndex
    updatedAt := some p.updatedAt }

/-- Replacement of a numeric field value by the finite number the
comparator effectively uses: non-finite and missing values become 0. -/
def asZero (v : JsNum) : JsNum := .fin (safeNum0 v)

/-- A participant with every numeric field replaced by its comparison
value (`asZero`); used to state that the comparator treats non-finite
or missing numeric fields as 0. -/
def zeroNumeric (p : Participant) : Participant :=
  { p with
    totalMistakes := asZero p.totalMistakes
    roundMistakes := asZero p.roundMistakes
    completedRounds := asZero p.completedRounds
    totalFound := asZero p.totalFound
    lastRoundMs := asZero p.lastRoundMs
    bestRoundMs := asZero p.bestRoundMs
    currentMiniGameIndex := asZero p.currentMiniGameIndex }

/-- Whether a numeric field value is a finite number. -/
def JsNum.isFiniteB : JsNum → Bool
  | .fin _ => true
  | _ => false

/-- Whether a numeric field value is a finite number that is ≥ 0. -/
def JsNum.finNonnegB : JsNum → Bool
  | .fin q => decide (0 ≤ q)
  | _ => false

/-- All six numeric counters of a record are finite. -/
def countersFinite (p : Participant) : Bool :=
  p.totalMistakes.isFiniteB && p.roundMistakes.isFiniteB &&
  p.completedRounds.isFiniteB && p.totalFound.isFiniteB &&
  p.lastRoundMs.isFiniteB && p.bestRoundMs.isFiniteB

/-- All six numeric counters of a record are finite and ≥ 0. -/
def countersFinNonneg (p : Participant) : Bool :=
  p.totalMistakes.finNonnegB && p.roundMistakes.finNonnegB &&
  p.completedRounds.finNonnegB && p.totalFound.finNonnegB &&
  p.lastRoundMs.finNonnegB && p.bestRoundMs.finNonnegB

/-- A persisted numeric value that cannot load to a negative counter:
either not a finite number (then `safeNum` yields 0) or finite and ≥ 0. -/
def JsNum.loadsNonnegB : JsNum → Bool
  | .fin q => decide (0 ≤ q)
  | _ => true

/-- All six numeric counters of a persisted entry load to values ≥ 0. -/
def rowCountersOk (row : RawRow) : Bool :=
  row.totalMistakes.loadsNonnegB && row.roundMistakes.loadsNonnegB &&
  row.completedRounds.loadsNonnegB && row.totalFound.loadsNonnegB &&
  row.lastRoundMs.loadsNonnegB && row.bestRoundMs.loadsNonnegB

/-- Well-formedness of an in-memory record under which persisting and
reloading is lossless: a trimmed non-empty id, a non-empty name that is
a fixed point of `cleanName`, finite numeric fields and a truthy
`updatedAt`. `join`, `normalizeStatsPatch` and `loadState` guarantee
every conjunct except the `cleanName` fixed point: `cleanName` trims
before truncating, so a name input longer than 28 characters can be
stored with trailing whitespace that a reload would trim again (see
the C4 counterexample below). -/
def validRecord (p : Participant) : Bool :=
  decide (jsTrim p.id = p.id) && decide (p.id ≠ "") &&
  decide (cleanName (some p.name) = p.name) && decide (p.name ≠ "") &&
  countersFinite p && p.currentMiniGameIndex.isFiniteB &&
  decide (p.updatedAt ≠ "")

/-- Reachability of a registry value from a starting registry by any
sequence of `join` and `update` calls (with arbitrary request inputs,
generated ids and clock values). -/
inductive Evolves : List Participant → List Participant → Prop where
  | refl (reg : List Participant) : Evolves reg reg
  | joinStep (reg reg' : List Participant) (nameIn : Option String)
      (newId now : String) (h : Evolves reg reg') :
      Evolves reg (join reg' nameIn newId now).2.1
  | updateStep (reg reg' : List Participant) (idIn : Option String)
      (stats : Option StatsPatch) (now : String) (h : Evolves reg reg') :
      Evolves reg (update reg' idIn stats now).2.1

/-- Fixture: a baseline well-formed participant record. -/
def baseP : Participant :=
  { id := "p1"
    name := "Dana"
    totalMistakes := .fin 0
    roundMistakes := .fin 0
    completedRounds := .fin 0
    totalFound := .fin 0
    lastRoundMs := .fin 0
    bestRoundMs := .fin 0
    currentMiniGame := ""
    currentMiniGameIndex := .fin 0
    updatedAt := "2024-05-01T10:00:00.000Z" }

/-- Fixture: a record identical to `baseP` in every ranking key but
with a different id. -/
def baseQ : Participant := { baseP with id := "p2" }

/-- Fixture: a persisted entry with a negative stored counter. -/
def negRow : RawRow :=
  { id := some "x1"
    name := some "Noa"
    totalMistakes := .fin (-5)
    roundMistakes := .fin 0
    completedRounds := .fin 0
    totalFound := .fin 0
    lastRoundMs := .fin 0
    bestRoundMs := .fin 0
    currentMiniGame := some ""
    currentMiniGameIndex := .fin 0
    updatedAt := some "2024-05-01T10:00:00.000Z" }

/-- Fixture: a persisted entry with no id at all (Scenario F's
malformed entry). -/
def malRow : RawRow :=
  { id := none
    name := some "Gal"
    totalMistakes := .fin 1
    roundMistakes := .fin 0
    completedRounds := .fin 2
    totalFound := .fin 3
    lastRoundMs := .fin 100
    bestRoundMs := .fin 90
    currentMiniGame := some "maze"
    currentMiniGameIndex := .fin 1
    updatedAt := some "2024-05-01T10:00:00.000Z" }

/-- Fixture: a well-formed persisted entry (Scenario F's valid entry). -/
def okRow : RawRow :=
  { id := some "ok1"
    name := some "Omer"
    totalMistakes := .fin 2
    roundMistakes := .fin 1
    completedRounds := .fin 4
    totalFound := .fin 7
    lastRoundMs := .fin 1500
    bestRoundMs := .fin 1200
    currentMiniGame := some "puzzle"
    currentMiniGameIndex := .fin 2
    updatedAt := some "2024-04-30T09:00:00.000Z" }

/-- The record that loading `okRow` produces. -/
def okRowLoaded : Participant :=
  { id := "ok1"
    name := "Omer"
    totalMistakes := .fin 2
    roundMistakes := .fin 1
    completedRounds := .fin 4
    totalFound := .fin 7
    lastRoundMs := .fin 1500
    bestRoundMs := .fin 1200
    currentMiniGame := "puzzle"
    currentMiniGameIndex := .fin 2
    updatedAt := "2024-04-30T09:00:00.000Z" }

/-- Fixture: a record ranking strictly above `baseP` (more completed
rounds). -/
def highP : Participant :=
  { baseP with id := "p3", name := "Alma", completedRounds := .fin 3 }

/-- The record that loading `negRow` produces: its negative stored
counter survives `loadState` unchanged. -/
def negLoaded : Participant :=
  { id := "x1"
    name := "Noa"
    totalMistakes := .fin (-5)
    roundMistakes := .fin 0
    completedRounds := .fin 0
    totalFound := .fin 0
    lastRoundMs := .fin 0
    bestRoundMs := .fin 0
    currentMiniGame := ""
    currentMiniGameIndex := .fin 0
    updatedAt := "2024-05-01T10:00:00.000Z" }

/-- Fixture: the record `join` creates for the 31-character name input
`"abcdefghijklmnopqrstuvwxyza bcd"`: trimming does nothing and
`slice(0, 28)` cuts in front of `"bcd"`, so the stored name is the
28-character string `"abcdefghijklmnopqrstuvwxyza "` with a trailing
space. -/
def longNameP : Participant :=
  { baseP with
    id := "pL"
    name := "abcdefghijklmnopqrstuvwxyza "
    updatedAt := "tL" }

/-- The record that reloading the persisted `longNameP` produces:
`loadState` re-applies `cleanName`, which now trims the trailing space
away, leaving 27 characters. -/
def longLoadedP : Participant :=
  { longNameP with name := "abcdefghijklmnopqrstuvwxyza" }

/-! Lemmas about the lexicographic comparison. -/

theorem cleanName_none : cleanName none = "" := rfl

theorem lexCmp_self : ∀ s : List Char, lexCmp s s = 0
  | [] => rfl
  | a :: as => by
      simp only [lexCmp, lt_irrefl, if_false]
      exact lexCmp_self as

theorem lexCmp_swap : ∀ s t : List Char, lexCmp t s = -lexCmp s t
  | [], [] => rfl
  | [], _ :: _ => rfl
  | _ :: _, [] => rfl
  | a :: as, b :: bs => by
      simp only [lexCmp]
      rcases lt_trichotomy a b with h | h | h
      · simp [h, asymm h]
      · subst h
        simp only [lt_irrefl, if_false]
        exact lexCmp_swap as bs
      · simp [h, asymm h]

theorem lexCmp_eq_zero_iff : ∀ s t : List Char, lexCmp s t = 0 ↔ s = t
  | [], [] => by simp [lexCmp]
  | [], _ :: _ => by simp [lexCmp]
  | _ :: _, [] => by simp [lexCmp]
  | a :: as, b :: bs => by
      simp only [lexCmp]
      rcases lt_trichotomy a b with h | h | h
      · rw [if_pos h]
        simp [ne_of_lt h]
      · subst h
        rw [if_neg (lt_irrefl a), if_neg (lt_irrefl a)]
        simp [lexCmp_eq_zero_iff as bs]
      · rw [if_neg (asymm h), if_pos h]
        simp [(ne_of_lt h).symm]

theorem lexCmp_le_trans :
    ∀ s t u : List Char, lexCmp s t ≤ 0 → lexCmp t u ≤ 0 → lexCmp s u ≤ 0
  | [], _, [] => by intro _ _; simp [lexCmp]
  | [], _, _ :: _ => by intro _ _; simp [lexCmp]
  | a :: as, [], u => by intro h _; simp [lexCmp] at h
  | a :: as, b :: bs, [] => by intro _ h; simp [lexCmp] at h
  | a :: as, b :: bs, c :: cs => by
      intro h1 h2
      simp only [lexCmp] at h1 h2 ⊢
      rcases lt_trichotomy a b with hab | hab | hab
      · rcases lt_trichotomy b c with hbc | hbc | hbc
        · rw [if_pos (lt_trans hab hbc)]; omega
        · subst hbc; rw [if_pos hab]; omega
        · rw [if_neg (asymm hbc), if_pos hbc] at h2; omega
      · subst hab
        rcases lt_trichotomy a c with hac | hac | hac
        · rw [if_pos hac]; omega
        · subst hac
          rw [if_neg (lt_irrefl a), if_neg (lt_irrefl a)] at h1 h2 ⊢
          exact lexCmp_le_trans as bs cs h1 h2
        · rw [if_neg (asymm hac), if_pos hac] at h2; omega
      · rw [if_neg (asymm hab), if_pos hab] at h1; omega

/-! Lemmas about the comparator. -/

theorem scoreSort_def (a b : Participant) :
    scoreSort a b =
      if safeNum0 b.completedRounds - safeNum0 a.completedRounds ≠ 0 then
        safeNum0 b.completedRounds - safeNum0 a.completedRounds
      else if safeNum0 a.totalMistakes - safeNum0 b.totalMistakes ≠ 0 then
        safeNum0 a.totalMistakes - safeNum0 b.totalMistakes
      else ((lexCmp a.name.data b.name.data : Int) : ℚ) := rfl

theorem scoreSort_swap (a b : Participant) : scoreSort b a = -scoreSort a b := by
  rw [scoreSort_def, scoreSort_def]
  rcases eq_or_ne (safeNum0 b.completedRounds - safeNum0 a.completedRounds) 0 with hc | hc
  · have hc' : safeNum0 a.completedRounds - safeNum0 b.completedRounds = 0 := by linarith
    rw [if_neg (not_not_intro hc'), if_neg (not_not_intro hc)]
    rcases eq_or_ne (safeNum0 a.totalMistakes - safeNum0 b.totalMistakes) 0 with hm | hm
    · have hm' : safeNum0 b.totalMistakes - safeNum0 a.totalMistakes = 0 := by linarith
      rw [if_neg (not_not_intro hm'), if_neg (not_not_intro hm)]
      rw [lexCmp_swap a.name.data b.name.data]
      push_cast
      ring
    · have hm' : safeNum0 b.totalMistakes - safeNum0 a.totalMistakes ≠ 0 :=
        fun h => hm (by linarith)
      rw [if_pos hm', if_pos hm]
      ring
  · have hc' : safeNum0 a.completedRounds - safeNum0 b.completedRounds ≠ 0 :=
      fun h => hc (by linarith)
    rw [if_pos hc', if_pos hc]
    ring

theorem scoreSort_lt_zero_iff (a b : Participant) :
    scoreSort a b < 0 ↔
      (safeNum0 b.completedRounds < safeNum0 a.completedRounds ∨
        (safeNum0 a.completedRounds = safeNum0 b.completedRounds ∧
          (safeNum0 a.totalMistakes < safeNum0 b.totalMistakes ∨
            (safeNum0 a.totalMistakes = safeNum0 b.totalMistakes ∧
              lexCmp a.name.data b.name.data < 0)))) := by
  rw [scoreSort_def]
  rcases eq_or_ne (safeNum0 b.completedRounds - safeNum0 a.completedRounds) 0 with hc | hc
  · rw [if_neg (not_not_intro hc)]
    rcases eq_or_ne (safeNum0 a.totalMistakes - safeNum0 b.totalMistakes) 0 with hm | hm
    · rw [if_neg (not_not_intro hm)]
      constructor
      · intro h
        refine Or.inr ⟨by linarith, Or.inr ⟨by linarith, ?_⟩⟩
        exact_mod_cast h
      · rintro (h | ⟨-, h | ⟨-, h⟩⟩)
        · linarith
        · linarith
        · exact_mod_cast h
    · rw [if_pos hm]
      constructor
      · intro h
        exact Or.inr ⟨by linarith, Or.inl (by linarith)⟩
      · rintro (h | ⟨-, h | ⟨h, -⟩⟩)
        · linarith
        · linarith
        · exact absurd (by linarith :
            safeNum0 a.totalMistakes - safeNum0 b.totalMistakes = 0) hm
  · rw [if_pos hc]
    constructor
    · intro h
      exact Or.inl (by linarith)
    · rintro (h | ⟨h, -⟩)
      · linarith
      · exact absurd (by linarith :
          safeNum0 b.completedRounds - safeNum0 a.completedRounds = 0) hc

theorem scoreSort_eq_zero_iff (a b : Participant) :
    scoreSort a b = 0 ↔
      (safeNum0 a.completedRounds = safeNum0 b.completedRounds ∧
        safeNum0 a.totalMistakes = safeNum0 b.totalMistakes ∧ a.name = b.name) := by
  rw [scoreSort_def]
  rcases eq_or_ne (safeNum0 b.completedRounds - safeNum0 a.completedRounds) 0 with hc | hc
  · rw [if_neg (not_not_intro hc)]
    rcases eq_or_ne (safeNum0 a.totalMistakes - safeNum0 b.totalMistakes) 0 with hm | hm
    · rw [if_neg (not_not_intro hm)]
      have hcast : ((lexCmp a.name.data b.name.data : Int) : ℚ) = 0 ↔
          lexCmp a.name.data b.name.data = 0 := by
        exact_mod_cast Iff.rfl
      rw [hcast, lexCmp_eq_zero_iff]
      constructor
      · intro h
        exact ⟨by linarith, by linarith, String.ext h⟩
      · rintro ⟨-, -, h⟩
        rw [h]
    · rw [if_pos hm]
      constructor
      · intro h
        exact absurd h hm
      · rintro ⟨-, h, -⟩
        exact absurd (by linarith :
          safeNum0 a.totalMistakes - safeNum0 b.totalMistakes = 0) hm
  · rw [if_pos hc]
    constructor
    · intro h
      exact absurd h hc
    · rintro ⟨h, -, -⟩
      exact absurd (by linarith :
        safeNum0 b.completedRounds - safeNum0 a.completedRounds = 0) hc

theorem scoreSort_le_trans {a b c : Participant}
    (h1 : scoreSort a b ≤ 0) (h2 : scoreSort b c ≤ 0) : scoreSort a c ≤ 0 := by
  rw [le_iff_lt_or_eq] at h1 h2 ⊢
  rw [scoreSort_lt_zero_iff, scoreSort_eq_zero_iff] at h1 h2 ⊢
  have hcr1 : safeNum0 b.completedRounds ≤ safeNum0 a.completedRounds := by
    rcases h1 with (h | ⟨h, -⟩) | ⟨h, -, -⟩ <;> linarith
  have hcr2 : safeNum0 c.completedRounds ≤ safeNum0 b.completedRounds := by
    rcases h2 with (h | ⟨h, -⟩) | ⟨h, -, -⟩ <;> linarith
  by_cases hca : safeNum0 c.completedRounds < safeNum0 a.completedRounds
  · exact Or.inl (Or.inl hca)
  push_neg at hca
  have hcab : safeNum0 a.completedRounds = safeNum0 b.completedRounds := by linarith
  have hcbc : safeNum0 b.completedRounds = safeNum0 c.completedRounds := by linarith
  have htm1 : safeNum0 a.totalMistakes ≤ safeNum0 b.totalMistakes := by
    rcases h1 with (h | ⟨-, h | ⟨h, -⟩⟩) | ⟨-, h, -⟩ <;> linarith
  have htm2 : safeNum0 b.totalMistakes ≤ safeNum0 c.totalMistakes := by
    rcases h2 with (h | ⟨-, h | ⟨h, -⟩⟩) | ⟨-, h, -⟩ <;> linarith
  by_cases hta : safeNum0 a.totalMistakes < safeNum0 c.totalMistakes
  · exact Or.inl (Or.inr ⟨by linarith, Or.inl hta⟩)
  push_neg at hta
  have htab : safeNum0 a.totalMistakes = safeNum0 b.totalMistakes := by linarith
  have htbc : safeNum0 b.totalMistakes = safeNum0 c.totalMistakes := by linarith
  have hn1 : lexCmp a.name.data b.name.data < 0 ∨ a.name = b.name := by
    rcases h1 with (h | ⟨-, h | ⟨-, h⟩⟩) | ⟨-, -, h⟩
    · exfalso; linarith
    · exfalso; linarith
    · exact Or.inl h
    · exact Or.inr h
  have hn2 : lexCmp b.name.data c.name.data < 0 ∨ b.name = c.name := by
    rcases h2 with (h | ⟨-, h | ⟨-, h⟩⟩) | ⟨-, -, h⟩
    · exfalso; linarith
    · exfalso; linarith
    · exact Or.inl h
    · exact Or.inr h
  rcases hn1 with hn1 | hn1
  · rcases hn2 with hn2 | hn2
    · have hle := lexCmp_le_trans a.name.data b.name.data c.name.data
        (le_of_lt hn1) (le_of_lt hn2)
      rcases lt_or_eq_of_le hle with hlex | hlex
      · exact Or.inl (Or.inr ⟨by linarith, Or.inr ⟨by linarith, hlex⟩⟩)
      · exfalso
        have hdata : a.name.data = c.name.data := (lexCmp_eq_zero_iff _ _).mp hlex
        rw [← hdata] at hn2
        have := lexCmp_swap a.name.data b.name.data
        linarith
    · rw [← hn2]
      exact Or.inl (Or.inr ⟨by linarith, Or.inr ⟨by linarith, hn1⟩⟩)
  · rcases hn2 with hn2 | hn2
    · rw [hn1]
      exact Or.inl (Or.inr ⟨by linarith, Or.inr ⟨by linarith, hn2⟩⟩)
    · exact Or.inr ⟨by linarith, by linarith, hn1.trans hn2⟩

theorem scoreLe_total (a b : Participant) : scoreLe a b || scoreLe b a := by
  rcases le_or_lt (scoreSort a b) 0 with h | h
  · simp [scoreLe, h]
  · have h' : scoreSort b a ≤ 0 := by
      rw [scoreSort_swap]; linarith
    simp [scoreLe, h']

theorem scoreLe_trans (a b c : Participant) :
    scoreLe a b → scoreLe b c → scoreLe a c := by
  simp only [scoreLe, decide_eq_true_eq]
  exact fun h1 h2 => scoreSort_le_trans h1 h2

theorem participantsList_sorted (l : List Participant) :
    (participantsList l).Pairwise (fun a b => scoreLe a b) := by
  exact List.sorted_mergeSort scoreLe_trans scoreLe_total l

theorem participantsList_idem (l : List Participant) :
    participantsList (participantsList l) = participantsList l := by
  exact List.mergeSort_of_sorted (participantsList_sorted l)

/-! Lemmas about the registry and the persistence round trip. -/

theorem insertP_mem {reg : List Participant} {p q : Participant}
    (h : q ∈ insertP reg p) : q ∈ reg ∨ q = p := by
  unfold insertP at h
  by_cases hc : reg.any (fun r => r.id = p.id)
  · rw [if_pos hc] at h
    rcases List.mem_map.mp h with ⟨r, hr, hq⟩
    by_cases hid : r.id = p.id
    · rw [if_pos hid] at hq
      exact Or.inr hq.symm
    · rw [if_neg hid] at hq
      exact Or.inl (hq ▸ hr)
  · rw [if_neg hc] at h
    rcases List.mem_append.mp h with h | h
    · exact Or.inl h
    · exact Or.inr (List.mem_singleton.mp h)

theorem insertP_fresh {reg : List Participant} {p : Participant}
    (h : ∀ q ∈ reg, q.id ≠ p.id) : insertP reg p = reg ++ [p] := by
  unfold insertP
  rw [if_neg]
  intro hc
  rcases List.any_eq_true.mp hc with ⟨r, hr, hid⟩
  exact h r hr (by simpa using hid)

theorem insertP_length {reg : List Participant} {p : Participant}
    (h : ∀ q ∈ reg, q.id ≠ p.id) : (insertP reg p).length = reg.length + 1 := by
  rw [insertP_fresh h]
  simp

theorem loadState_mem_aux (now : String) :
    ∀ (rows : List RawRow) (acc : List Participant) (p : Participant),
      p ∈ rows.foldl
        (fun reg row =>
          match loadRow row now with
          | some q => insertP reg q
          | none => reg) acc →
      p ∈ acc ∨ ∃ row ∈ rows, loadRow row now = some p
  | [], _, _, h => Or.inl h
  | r :: rs, acc, p, h => by
      simp only [List.foldl_cons] at h
      rcases loadState_mem_aux now rs _ p h with hacc | ⟨row, hrow, hlr⟩
      · cases hl : loadRow r now with
        | some q =>
          rw [hl] at hacc
          rcases insertP_mem hacc with h' | h'
          · exact Or.inl h'
          · exact Or.inr ⟨r, List.mem_cons_self r rs, by rw [hl, h']⟩
        | none =>
          rw [hl] at hacc
          exact Or.inl hacc
      · exact Or.inr ⟨row, List.mem_cons_of_mem r hrow, hlr⟩

theorem loadState_mem {rows : List RawRow} {now : String} {p : Participant}
    (h : p ∈ loadState rows now) : ∃ row ∈ rows, loadRow row now = some p := by
  rcases loadState_mem_aux now rows [] p h with h' | h'
  · exact absurd h' (List.not_mem_nil p)
  · exact h'

theorem isFiniteB_exists {v : JsNum} (h : v.isFiniteB = true) : ∃ q, v = .fin q := by
  cases v with
  | fin q => exact ⟨q, rfl⟩
  | nonfinite => simp [JsNum.isFiniteB] at h
  | missing => simp [JsNum.isFiniteB] at h

theorem loadRow_toRaw {p : Participant} (now : String) (h : validRecord p = true) :
    loadRow (toRaw p) now = some p := by
  obtain ⟨id, name, tm, rm, cr, tf, lr, br, cmg, cmi, ua⟩ := p
  simp only [validRecord, countersFinite, Bool.and_eq_true, decide_eq_true_eq] at h
  obtain ⟨⟨⟨⟨⟨⟨h1, h2⟩, h3⟩, h4⟩, ⟨⟨⟨⟨⟨htm, hrm⟩, hcr⟩, htf⟩, hlr⟩, hbr⟩⟩, hcmi⟩, hua⟩ := h
  obtain ⟨qtm, rfl⟩ := isFiniteB_exists htm
  obtain ⟨qrm, rfl⟩ := isFiniteB_exists hrm
  obtain ⟨qcr, rfl⟩ := isFiniteB_exists hcr
  obtain ⟨qtf, rfl⟩ := isFiniteB_exists htf
  obtain ⟨qlr, rfl⟩ := isFiniteB_exists hlr
  obtain ⟨qbr, rfl⟩ := isFiniteB_exists hbr
  obtain ⟨qcmi, rfl⟩ := isFiniteB_exists hcmi
  simp only [loadRow, toRaw, Option.getD_some, h1, h3]
  rw [if_neg (by push_neg; exact ⟨h2, h4⟩)]
  simp [safeNum0, safeNum, hua]

theorem loadState_of_valid_aux (now : String) :
    ∀ (l acc : List Participant),
      (∀ p ∈ l, loadRow (toRaw p) now = some p) →
      (((acc ++ l).map Participant.id).Nodup) →
      (l.map toRaw).foldl
        (fun reg row =>
          match loadRow row now with
          | some q => insertP reg q
          | none => reg) acc = acc ++ l
  | [], acc, _, _ => by simp
  | p :: rest, acc, hload, hids => by
      simp only [List.map_cons, List.foldl_cons, hload p (List.mem_cons_self p rest)]
      have hfresh : ∀ q ∈ acc, q.id ≠ p.id := by
        intro q hq hcontra
        have hnd := hids
        rw [List.map_append, List.nodup_append] at hnd
        exact hnd.2.2 (List.mem_map_of_mem Participant.id hq)
          (by simp [hcontra])
      rw [insertP_fresh hfresh]
      have hres := loadState_of_valid_aux now rest (acc ++ [p])
        (fun q hq => hload q (List.mem_cons_of_mem p hq))
        (by simpa using hids)
      rw [hres]
      simp

theorem loadState_of_valid (l : List Participant) (now : String)
    (hload : ∀ p ∈ l, loadRow (toRaw p) now = some p)
    (hids : (l.map Participant.id).Nodup) :
    loadState (l.map toRaw) now = l := by
  have := loadState_of_valid_aux now l [] hload (by simpa using hids)
  simpa [loadState] using this

/-! Claim theorems. -/

/-- Claim C1: for every pair of participant records, the comparator
ranks `a` above `b` (returns a negative value) whenever `a` has more
`completedRounds` than `b`; on equal `completedRounds` it ranks the
record with fewer `totalMistakes` higher; and non-finite or missing
numeric fields are treated as 0 (the comparator's value is unchanged
when every numeric field is replaced by its `safeNum` image, and being
a total function it never raises a comparison error). -/
theorem claim_C1_comparator_keys (a b : Participant) :
    (safeNum0 b.completedRounds < safeNum0 a.completedRounds → scoreSort a b < 0) ∧
    (safeNum0 a.completedRounds = safeNum0 b.completedRounds →
      safeNum0 a.totalMistakes < safeNum0 b.totalMistakes → scoreSort a b < 0) ∧
    scoreSort a b = scoreSort (zeroNumeric a) (zeroNumeric b) := by
  refine ⟨?_, ?_, ?_⟩
  · intro h
    rw [scoreSort_lt_zero_iff]
    exact Or.inl h
  · intro h1 h2
    rw [scoreSort_lt_zero_iff]
    exact Or.inr ⟨h1, Or.inl h2⟩
  · rw [scoreSort_def, scoreSort_def]
    simp [zeroNumeric, asZero, safeNum0, safeNum]

/-- Witness for C1 at a concrete pair: `highP` has 3 completed rounds,
`baseP` has 0, and the comparator ranks `highP` above. -/
theorem claim_C1_witness :
    safeNum0 baseP.completedRounds < safeNum0 highP.completedRounds ∧
      scoreSort highP baseP < 0 :=
  ⟨by decide, (claim_C1_comparator_keys highP baseP).1 (by decide)⟩

/-- Claim C2: `applyPatch` (the `normalizeStatsPatch` merge) changes
only the fields named in the patch — every field absent from the patch
keeps its pre-patch value — except `updatedAt`, which is overwritten
with the current time on every patch, including the empty one. -/
theorem claim_C2_patch_frame (existing : Participant) (patch : StatsPatch) (now : String) :
    (normalizeStatsPatch existing patch now).id = existing.id ∧
    (patch.name = none →
      (normalizeStatsPatch existing patch now).name = existing.name) ∧
    (patch.currentMiniGame = none →
      (normalizeStatsPatch existing patch now).currentMiniGame = existing.currentMiniGame) ∧
    (patch.currentMiniGameIndex = .missing →
      (normalizeStatsPatch existing patch now).currentMiniGameIndex =
        existing.currentMiniGameIndex) ∧
    (patch.totalMistakes = .missing →
      (normalizeStatsPatch existing patch now).totalMistakes = existing.totalMistakes) ∧
    (patch.roundMistakes = .missing →
      (normalizeStatsPatch existing patch now).roundMistakes = existing.roundMistakes) ∧
    (patch.completedRounds = .missing →
      (normalizeStatsPatch existing patch now).completedRounds = existing.completedRounds) ∧
    (patch.totalFound = .missing →
      (normalizeStatsPatch existing patch now).totalFound = existing.totalFound) ∧
    (patch.lastRoundMs = .missing →
      (normalizeStatsPatch existing patch now).lastRoundMs = existing.lastRoundMs) ∧
    (patch.bestRoundMs = .missing →
      (normalizeStatsPatch existing patch now).bestRoundMs = existing.bestRoundMs) ∧
    (normalizeStatsPatch existing patch now).updatedAt = now := by
  refine ⟨rfl, ?_, ?_, ?_, ?_, ?_, ?_, ?_, ?_, ?_, rfl⟩ <;>
    intro h <;> simp [normalizeStatsPatch, h, cleanName_none]

/-- Witness for C2 at a concrete input: the empty patch leaves the
name of `baseP` unchanged. -/
theorem claim_C2_witness :
    emptyPatch.name = none ∧
      (normalizeStatsPatch baseP emptyPatch "t2").name = baseP.name :=
  ⟨rfl, (claim_C2_patch_frame baseP emptyPatch "t2").2.1 rfl⟩

/-- Counterexample to C3 as stated: `baseP` and `baseQ` are distinct
records (distinct ids) with identical names and identical numeric keys,
and the comparator returns 0 both ways — neither ranks above the other,
so the comparator is not a strict total order on distinct records. -/
theorem claim_C3_counterexample :
    baseP ≠ baseQ ∧ scoreSort baseP baseQ = 0 ∧ scoreSort baseQ baseP = 0 := by
  refine ⟨by decide, ?_, ?_⟩ <;> rw [scoreSort_eq_zero_iff] <;> exact ⟨rfl, rfl, rfl⟩

/-- Claim C3 amended: the comparator is a total preorder whose induced
equivalence is agreement on all three comparison keys. For any two
records that differ in at least one comparison key (`completedRounds`
via `safeNum`, `totalMistakes` via `safeNum`, or `name` under the
modelled collation), exactly one of a-ranks-above-b and b-ranks-above-a
holds; records agreeing on all three keys compare equal both ways (a
stable sort then preserves their input order); and sorting an
already-sorted list with the comparator yields an identical output. -/
theorem claim_C3_amended :
    (∀ a b : Participant,
      ¬(safeNum0 a.completedRounds = safeNum0 b.completedRounds ∧
          safeNum0 a.totalMistakes = safeNum0 b.totalMistakes ∧ a.name = b.name) →
        ((scoreSort a b < 0 ∧ ¬scoreSort b a < 0) ∨
          (scoreSort b a < 0 ∧ ¬scoreSort a b < 0))) ∧
    (∀ a b : Participant,
      (safeNum0 a.completedRounds = safeNum0 b.completedRounds ∧
          safeNum0 a.totalMistakes = safeNum0 b.totalMistakes ∧ a.name = b.name) →
        scoreSort a b = 0 ∧ scoreSort b a = 0) ∧
    (∀ l : List Participant,
      participantsList (participantsList l) = participantsList l) := by
  refine ⟨?_, ?_, participantsList_idem⟩
  · intro a b hk
    have hne : scoreSort a b ≠ 0 := fun h => hk ((scoreSort_eq_zero_iff a b).mp h)
    rcases lt_trichotomy (scoreSort a b) 0 with h | h | h
    · refine Or.inl ⟨h, ?_⟩
      rw [scoreSort_swap]
      linarith
    · exact absurd h hne
    · refine Or.inr ⟨?_, by linarith⟩
      rw [scoreSort_swap]
      linarith
  · intro a b hk
    constructor
    · exact (scoreSort_eq_zero_iff a b).mpr hk
    · exact (scoreSort_eq_zero_iff b a).mpr ⟨hk.1.symm, hk.2.1.symm, hk.2.2.symm⟩

/-- Witness for C3 (amended) at a concrete pair with differing keys:
exactly one direction ranks above. -/
theorem claim_C3_witness :
    ¬(safeNum0 highP.completedRounds = safeNum0 baseP.completedRounds ∧
        safeNum0 highP.totalMistakes = safeNum0 baseP.totalMistakes ∧
        highP.name = baseP.name) ∧
      ((scoreSort highP baseP < 0 ∧ ¬scoreSort baseP highP < 0) ∨
        (scoreSort baseP highP < 0 ∧ ¬scoreSort highP baseP < 0)) :=
  ⟨by decide, claim_C3_amended.1 highP baseP (by decide)⟩

/-- Counterexample to C4 as stated ("for every registry"): the record
`longNameP` is exactly what `join` creates from the name input
`"abcdefghijklmnopqrstuvwxyza bcd"` — its stored 28-character name ends
in a space because `cleanName` trims before truncating. Reloading the
persisted snapshot re-applies `cleanName`, which trims that space away,
so the recovered ranked list differs from the persisted one. -/
theorem claim_C4_counterexample :
    (join [] (some "abcdefghijklmnopqrstuvwxyza bcd") "pL" "tL").1 =
        Except.ok longNameP ∧
      participantsList
          (loadState ((persistState [longNameP] "n1").participants.map toRaw) "n2") ≠
        (persistState [longNameP] "n1").participants := by
  refine ⟨rfl, ?_⟩
  have hp : (persistState [longNameP] "n1").participants = [longNameP] := by
    simp [persistState, participantsList]
  rw [hp]
  have hl : loadState ([longNameP].map toRaw) "n2" = [longLoadedP] := by decide
  rw [hl]
  have hs : participantsList [longLoadedP] = [longLoadedP] := by
    simp [participantsList]
  rw [hs]
  decide

/-- Claim C4 amended: persisting a registry's ranked snapshot and
recovering from that persisted record via the startup loading rules
yields a registry whose `list()` output, ranked by the comparator,
equals the originally persisted ranked order, provided every record is
well-formed with a name that is a fixed point of the cleaning rule
(`validRecord`) and ids are unique. The name restriction is exactly
what the counterexample forces: a record whose truncated name carries
boundary whitespace — reachable via `join` with an over-long name —
gets its name re-trimmed on reload and breaks the round trip; every
other name (in particular every join input of at most 28 trimmed
characters) satisfies the fixed-point condition. -/
theorem claim_C4_round_trip (reg : List Participant) (now now2 : String)
    (hvalid : ∀ p ∈ reg, validRecord p = true)
    (hids : (reg.map Participant.id).Nodup) :
    participantsList
        (loadState ((persistState reg now).participants.map toRaw) now2) =
      (persistState reg now).participants := by
  have hperm : List.Perm (participantsList reg) reg := List.mergeSort_perm reg scoreLe
  have hload : loadState ((participantsList reg).map toRaw) now2 = participantsList reg := by
    apply loadState_of_valid
    · intro p hp
      exact loadRow_toRaw now2 (hvalid p (hperm.subset hp))
    · exact ((hperm.map Participant.id).nodup_iff).mpr hids
  show participantsList (loadState ((participantsList reg).map toRaw) now2) =
    participantsList reg
  rw [hload, participantsList_idem]

/-- Witness for C4 at a concrete two-record registry. -/
theorem claim_C4_witness :
    ((∀ p ∈ [baseP, highP], validRecord p = true) ∧
        ([baseP, highP].map Participant.id).Nodup) ∧
      participantsList
          (loadState ((persistState [baseP, highP] "n1").participants.map toRaw) "n2") =
        (persistState [baseP, highP] "n1").participants :=
  ⟨⟨by decide, by decide⟩,
    claim_C4_round_trip [baseP, highP] "n1" "n2" (by decide) (by decide)⟩

/-! Lemmas about membership after each mutation, and counter bounds. -/

theorem join_mem {reg : List Participant} {nameIn : Option String}
    {newId now : String} {p : Participant}
    (h : p ∈ (join reg nameIn newId now).2.1) :
    p ∈ reg ∨
      (p.totalMistakes = .fin 0 ∧ p.roundMistakes = .fin 0 ∧
        p.completedRounds = .fin 0 ∧ p.totalFound = .fin 0 ∧
        p.lastRoundMs = .fin 0 ∧ p.bestRoundMs = .fin 0) := by
  unfold join at h
  by_cases hn : cleanName nameIn = ""
  · rw [if_pos hn] at h
    exact Or.inl h
  · rw [if_neg hn] at h
    rcases insertP_mem h with h' | h'
    · exact Or.inl h'
    · subst h'
      exact Or.inr ⟨rfl, rfl, rfl, rfl, rfl, rfl⟩

theorem update_mem {reg : List Participant} {idIn : Option String}
    {stats : Option StatsPatch} {now : String} {p : Participant}
    (h : p ∈ (update reg idIn stats now).2.1) :
    p ∈ reg ∨
      ∃ existing ∈ reg,
        p = normalizeStatsPatch existing (stats.getD emptyPatch) now := by
  unfold update at h
  cases hf : reg.find? (fun q => q.id = jsTrim (idIn.getD "")) with
  | none =>
    simp only [hf] at h
    exact Or.inl h
  | some existing =>
    simp only [hf] at h
    by_cases hid : jsTrim (idIn.getD "") = ""
    · rw [if_pos hid] at h
      exact Or.inl h
    · rw [if_neg hid] at h
      rcases insertP_mem h with h' | h'
      · exact Or.inl h'
      · exact Or.inr ⟨existing, List.mem_of_find?_eq_some hf, h'⟩

theorem counters_patch_nonneg {existing : Participant} {patch : StatsPatch}
    {now : String} (h : countersFinNonneg existing = true) :
    countersFinNonneg (normalizeStatsPatch existing patch now) = true := by
  simp only [countersFinNonneg, Bool.and_eq_true, normalizeStatsPatch] at h ⊢
  obtain ⟨⟨⟨⟨⟨h1, h2⟩, h3⟩, h4⟩, h5⟩, h6⟩ := h
  refine ⟨⟨⟨⟨⟨?_, ?_⟩, ?_⟩, ?_⟩, ?_⟩, ?_⟩ <;> split
  · exact h1
  · simp [JsNum.finNonnegB, le_max_left]
  · exact h2
  · simp [JsNum.finNonnegB, le_max_left]
  · exact h3
  · simp [JsNum.finNonnegB, le_max_left]
  · exact h4
  · simp [JsNum.finNonnegB, le_max_left]
  · exact h5
  · simp [JsNum.finNonnegB, le_max_left]
  · exact h6
  · simp [JsNum.finNonnegB, le_max_left]

theorem counters_patch_finite {existing : Participant} {patch : StatsPatch}
    {now : String} (h : countersFinite existing = true) :
    countersFinite (normalizeStatsPatch existing patch now) = true := by
  simp only [countersFinite, Bool.and_eq_true, normalizeStatsPatch] at h ⊢
  obtain ⟨⟨⟨⟨⟨h1, h2⟩, h3⟩, h4⟩, h5⟩, h6⟩ := h
  refine ⟨⟨⟨⟨⟨?_, ?_⟩, ?_⟩, ?_⟩, ?_⟩, ?_⟩ <;> split
  · exact h1
  · simp [JsNum.isFiniteB]
  · exact h2
  · simp [JsNum.isFiniteB]
  · exact h3
  · simp [JsNum.isFiniteB]
  · exact h4
  · simp [JsNum.isFiniteB]
  · exact h5
  · simp [JsNum.isFiniteB]
  · exact h6
  · simp [JsNum.isFiniteB]

theorem safeNum0_loadsNonneg {v : JsNum} (h : v.loadsNonnegB = true) :
    0 ≤ safeNum0 v := by
  cases v with
  | fin q =>
    simp only [JsNum.loadsNonnegB, decide_eq_true_eq] at h
    exact h
  | nonfinite => exact le_refl 0
  | missing => exact le_refl 0

theorem counters_loadRow_finite {row : RawRow} {now : String} {p : Participant}
    (h : loadRow row now = some p) : countersFinite p = true := by
  unfold loadRow at h
  by_cases hc : jsTrim (row.id.getD "") = "" ∨ cleanName row.name = ""
  · rw [if_pos hc] at h
    exact absurd h (Option.noConfusion)
  · rw [if_neg hc] at h
    obtain rfl := Option.some.inj h
    simp [countersFinite, JsNum.isFiniteB]

theorem counters_loadRow_nonneg {row : RawRow} {now : String} {p : Participant}
    (hok : rowCountersOk row = true) (h : loadRow row now = some p) :
    countersFinNonneg p = true := by
  unfold loadRow at h
  by_cases hc : jsTrim (row.id.getD "") = "" ∨ cleanName row.name = ""
  · rw [if_pos hc] at h
    exact absurd h (Option.noConfusion)
  · rw [if_neg hc] at h
    obtain rfl := Option.some.inj h
    simp only [rowCountersOk, Bool.and_eq_true] at hok
    obtain ⟨⟨⟨⟨⟨h1, h2⟩, h3⟩, h4⟩, h5⟩, h6⟩ := hok
    simp only [countersFinNonneg, JsNum.finNonnegB, Bool.and_eq_true, decide_eq_true_eq]
    exact ⟨⟨⟨⟨⟨safeNum0_loadsNonneg h1, safeNum0_loadsNonneg h2⟩,
      safeNum0_loadsNonneg h3⟩, safeNum0_loadsNonneg h4⟩,
      safeNum0_loadsNonneg h5⟩, safeNum0_loadsNonneg h6⟩

theorem evolves_counters_finite {reg0 reg : List Participant}
    (h0 : ∀ p ∈ reg0, countersFinite p = true) (hev : Evolves reg0 reg) :
    ∀ p ∈ reg, countersFinite p = true := by
  induction hev with
  | refl => exact h0
  | joinStep reg' nameIn newId now h ih =>
    intro p hp
    rcases join_mem hp with hp' | ⟨e1, e2, e3, e4, e5, e6⟩
    · exact ih p hp'
    · simp [countersFinite, JsNum.isFiniteB, e1, e2, e3, e4, e5, e6]
  | updateStep reg' idIn stats now h ih =>
    intro p hp
    rcases update_mem hp with hp' | ⟨existing, hex, rfl⟩
    · exact ih p hp'
    · exact counters_patch_finite (ih existing hex)

theorem evolves_counters_nonneg {reg0 reg : List Participant}
    (h0 : ∀ p ∈ reg0, countersFinNonneg p = true) (hev : Evolves reg0 reg) :
    ∀ p ∈ reg, countersFinNonneg p = true := by
  induction hev with
  | refl => exact h0
  | joinStep reg' nameIn newId now h ih =>
    intro p hp
    rcases join_mem hp with hp' | ⟨e1, e2, e3, e4, e5, e6⟩
    · exact ih p hp'
    · simp [countersFinNonneg, JsNum.finNonnegB, e1, e2, e3, e4, e5, e6]
  | updateStep reg' idIn stats now h ih =>
    intro p hp
    rcases update_mem hp with hp' | ⟨existing, hex, rfl⟩
    · exact ih p hp'
    · exact counters_patch_nonneg (ih existing hex)

/-- Counterexample to C5 as stated: recovery from arbitrary persisted
content does not clamp counters â a persisted entry whose
`totalMistakes` is the finite number -5 loads as-is, so the recovered
registry holds a record with a negative counter. -/
theorem claim_C5_counterexample :
    negLoaded ∈ loadState [negRow] "t0" ∧
      JsNum.finNonnegB negLoaded.totalMistakes = false := by
  decide

/-- Claim C5 amended: after any sequence of joins and patches starting
from a recovered registry, every record's six numeric counters are
finite; they are moreover all ≥ 0 whenever the persisted content the
registry was recovered from had no negative finite counter values (in
particular for content produced by persisting a well-formed registry).
The clamp to 0 is applied by `join` and `normalizeStatsPatch`, but
`loadState` passes finite persisted values through unclamped. -/
theorem claim_C5_invariant :
    (∀ (rows : List RawRow) (now : String) (reg : List Participant),
        Evolves (loadState rows now) reg →
          ∀ p ∈ reg, countersFinite p = true) ∧
    (∀ (rows : List RawRow) (now : String) (reg : List Participant),
        (∀ row ∈ rows, rowCountersOk row = true) →
          Evolves (loadState rows now) reg →
            ∀ p ∈ reg, countersFinNonneg p = true) := by
  constructor
  · intro rows now reg hev
    apply evolves_counters_finite _ hev
    intro p hp
    rcases loadState_mem hp with ⟨row, -, hlr⟩
    exact counters_loadRow_finite hlr
  · intro rows now reg hok hev
    apply evolves_counters_nonneg _ hev
    intro p hp
    rcases loadState_mem hp with ⟨row, hrow, hlr⟩
    exact counters_loadRow_nonneg (hok row hrow) hlr

/-- Witness for C5 (amended): loading a well-formed snapshot and then
joining keeps all counters finite and non-negative. -/
theorem claim_C5_witness :
    (∀ row ∈ [okRow], rowCountersOk row = true) ∧
      (∀ p ∈ (join (loadState [okRow] "t0") (some "Dana") "u1" "t1").2.1,
        countersFinNonneg p = true) :=
  ⟨by decide,
    claim_C5_invariant.2 [okRow] "t0" _ (by decide)
      (Evolves.joinStep _ _ (some "Dana") "u1" "t1" (Evolves.refl _))⟩

/-- Claim C6: on recovery from a present and parsable record, every
entry lacking a non-empty trimmed id or a name surviving the cleaning
rule is dropped silently; every valid entry loads with its cleaned id
and name, its prior (truthy) `updatedAt` not reset to now, and its
finite counters as stored; Scenario F: one malformed entry (missing
id) plus one valid entry recover to exactly the one valid record. -/
theorem claim_C6_recovery (row : RawRow) (now : String) :
    ((jsTrim (row.id.getD "") = "" ∨ cleanName row.name = "") →
        loadRow row now = none) ∧
    (∀ p, loadRow row now = some p →
      p.id = jsTrim (row.id.getD "") ∧ p.name = cleanName row.name ∧
      (∀ s, row.updatedAt = some s → s ≠ "" → p.updatedAt = s) ∧
      (∀ q, row.totalMistakes = JsNum.fin q → p.totalMistakes = JsNum.fin q) ∧
      (∀ q, row.completedRounds = JsNum.fin q → p.completedRounds = JsNum.fin q)) ∧
    loadState [malRow, okRow] now = [okRowLoaded] := by
  refine ⟨?_, ?_, ?_⟩
  · intro h
    unfold loadRow
    rw [if_pos h]
  · intro p h
    unfold loadRow at h
    by_cases hc : jsTrim (row.id.getD "") = "" ∨ cleanName row.name = ""
    · rw [if_pos hc] at h
      exact absurd h Option.noConfusion
    · rw [if_neg hc] at h
      obtain rfl := Option.some.inj h
      refine ⟨rfl, rfl, ?_, ?_, ?_⟩
      · intro s hs hne
        simp [hs, hne]
      · intro q hq
        simp [hq, safeNum0, safeNum]
      · intro q hq
        simp [hq, safeNum0, safeNum]
  · show loadState [malRow, okRow] now = [okRowLoaded]
    rfl

/-- Witness for C6 at the malformed fixture entry. -/
theorem claim_C6_witness :
    jsTrim (malRow.id.getD "") = "" ∧ loadRow malRow "t6" = none :=
  ⟨by decide, (claim_C6_recovery malRow "t6").1 (Or.inl (by decide))⟩

/-- Claim C7: a join whose name input trims to the empty string fails
with `name_required`, the registry is returned unchanged and no
persist happens. -/
theorem claim_C7_join_empty_name (reg : List Participant)
    (nameIn : Option String) (newId now : String)
    (h : jsTrim (nameIn.getD "") = "") :
    join reg nameIn newId now = (.error .nameRequired, reg, false) := by
  have hclean : cleanName nameIn = "" := by
    unfold cleanName
    rw [h]
    rfl
  unfold join
  rw [if_pos hclean]

/-- Witness for C7 at the whitespace-only name. -/
theorem claim_C7_witness :
    jsTrim ((some "   " : Option String).getD "") = "" ∧
      join [baseP] (some "   ") "id9" "t9" = (.error .nameRequired, [baseP], false) :=
  ⟨by decide, claim_C7_join_empty_name [baseP] (some "   ") "id9" "t9" (by decide)⟩

/-- Claim C8: an update whose trimmed id matches no registry record
fails with `participant_not_found`, the registry is returned unchanged
and no persist happens. -/
theorem claim_C8_update_not_found (reg : List Participant)
    (idIn : Option String) (stats : Option StatsPatch) (now : String)
    (h : ∀ p ∈ reg, p.id ≠ jsTrim (idIn.getD "")) :
    update reg idIn stats now = (.error .participantNotFound, reg, false) := by
  have hf : reg.find? (fun p => p.id = jsTrim (idIn.getD "")) = none := by
    rw [List.find?_eq_none]
    intro p hp
    simpa using h p hp
  unfold update
  simp only [hf]

/-- Witness for C8 at a concrete unknown id. -/
theorem claim_C8_witness :
    (∀ p ∈ [baseP], p.id ≠ jsTrim ((some "zz" : Option String).getD "")) ∧
      update [baseP] (some "zz") none "t8" =
        (.error .participantNotFound, [baseP], false) :=
  ⟨by decide, claim_C8_update_not_found [baseP] (some "zz") none "t8" (by decide)⟩

/-- Claim C9: with a valid (cleaned non-empty) name, `join` inserts a
record under the freshly generated id with all counters zero and grows
the registry by one; a second consecutive join â even with the same
name â inserts a second record, and the two rows coexist with distinct
ids. The freshness hypotheses model the generated ids
(`crypto.randomUUID()`), whose uniqueness is an assumption about the
external generator. -/
theorem claim_C9_join_unique (reg : List Participant) (nameIn : Option String)
    (id1 id2 now1 now2 : String) (hname : cleanName nameIn ≠ "")
    (h1 : ∀ q ∈ reg, q.id ≠ id1) (h2 : ∀ q ∈ reg, q.id ≠ id2)
    (hne : id2 ≠ id1) :
    ∃ p1 p2 : Participant,
      join reg nameIn id1 now1 = (.ok p1, reg ++ [p1], true) ∧
      p1.id = id1 ∧ p1.name = cleanName nameIn ∧
      p1.totalMistakes = JsNum.fin 0 ∧ p1.roundMistakes = JsNum.fin 0 ∧
      p1.completedRounds = JsNum.fin 0 ∧ p1.totalFound = JsNum.fin 0 ∧
      p1.lastRoundMs = JsNum.fin 0 ∧ p1.bestRoundMs = JsNum.fin 0 ∧
      (reg ++ [p1]).length = reg.length + 1 ∧
      join (reg ++ [p1]) nameIn id2 now2 = (.ok p2, (reg ++ [p1]) ++ [p2], true) ∧
      p2.id = id2 ∧ p2.name = cleanName nameIn ∧ p1.id ≠ p2.id ∧
      p1 ∈ (reg ++ [p1]) ++ [p2] ∧ p2 ∈ (reg ++ [p1]) ++ [p2] := by
  refine ⟨⟨id1, cleanName nameIn, .fin 0, .fin 0, .fin 0, .fin 0, .fin 0, .fin 0,
      "", .fin 0, now1⟩,
    ⟨id2, cleanName nameIn, .fin 0, .fin 0, .fin 0, .fin 0, .fin 0, .fin 0,
      "", .fin 0, now2⟩,
    ?_, rfl, rfl, rfl, rfl, rfl, rfl, rfl, rfl, by simp, ?_, rfl, rfl,
    Ne.symm hne, by simp, by simp⟩
  · simp only [join, if_neg hname]
    rw [insertP_fresh (fun q hq => h1 q hq)]
  · have hfresh2 : ∀ q ∈ reg ++ [(⟨id1, cleanName nameIn, .fin 0, .fin 0, .fin 0,
        .fin 0, .fin 0, .fin 0, "", .fin 0, now1⟩ : Participant)],
      q.id ≠ id2 := by
      intro q hq
      rcases List.mem_append.mp hq with hq | hq
      · exact h2 q hq
      · obtain rfl := List.mem_singleton.mp hq
        exact Ne.symm hne
    simp only [join, if_neg hname]
    rw [insertP_fresh (fun q hq => hfresh2 q hq)]

/-- Witness for C9: two joins with the name "Dana" on the empty
registry. -/
theorem claim_C9_witness :
    cleanName (some "Dana") ≠ "" ∧
      ∃ p1 p2 : Participant,
        join [] (some "Dana") "u1" "t1" = (.ok p1, [] ++ [p1], true) ∧
        p1.id = "u1" ∧ p1.name = cleanName (some "Dana") ∧
        p1.totalMistakes = JsNum.fin 0 ∧ p1.roundMistakes = JsNum.fin 0 ∧
        p1.completedRounds = JsNum.fin 0 ∧ p1.totalFound = JsNum.fin 0 ∧
        p1.lastRoundMs = JsNum.fin 0 ∧ p1.bestRoundMs = JsNum.fin 0 ∧
        ([] ++ [p1]).length = List.length ([] : List Participant) + 1 ∧
        join ([] ++ [p1]) (some "Dana") "u2" "t2" =
          (.ok p2, ([] ++ [p1]) ++ [p2], true) ∧
        p2.id = "u2" ∧ p2.name = cleanName (some "Dana") ∧ p1.id ≠ p2.id ∧
        p1 ∈ ([] ++ [p1]) ++ [p2] ∧ p2 ∈ ([] ++ [p1]) ++ [p2] :=
  ⟨by decide,
    claim_C9_join_unique [] (some "Dana") "u1" "u2" "t1" "t2" (by decide)
      (by decide) (by decide) (by decide)⟩

/-- Claim C10 (implicit): an update for an existing participant whose
`stats` is absent, `null` or not an object is treated as the empty
patch: it succeeds, every field except `updatedAt` is unchanged,
`updatedAt` becomes the current time, the patched record replaces the
old one in the registry, and the snapshot is re-persisted. -/
theorem claim_C10_missing_stats (reg : List Participant)
    (idIn : Option String) (now : String) (existing : Participant)
    (hfind : reg.find? (fun p => p.id = jsTrim (idIn.getD "")) = some existing)
    (hid : jsTrim (idIn.getD "") ≠ "") :
    update reg idIn none now =
      (.ok { existing with updatedAt := now },
        insertP reg { existing with updatedAt := now }, true) := by
  unfold update
  simp only [hfind]
  rw [if_neg hid]
  have hpatch :
      normalizeStatsPatch existing ((none : Option StatsPatch).getD emptyPatch) now =
        { existing with updatedAt := now } := rfl
  rw [hpatch]

/-- Witness for C10: an update of `baseP` with missing stats. -/
theorem claim_C10_witness :
    ([baseP].find? (fun p => p.id = jsTrim ((some "p1" : Option String).getD ""))
        = some baseP ∧
      jsTrim ((some "p1" : Option String).getD "") ≠ "") ∧
      update [baseP] (some "p1") none "t10" =
        (.ok { baseP with updatedAt := "t10" },
          insertP [baseP] { baseP with updatedAt := "t10" }, true) :=
  ⟨⟨by decide, by decide⟩,
    claim_C10_missing_stats [baseP] (some "p1") "t10" baseP (by decide) (by decide)⟩

end SpotGame
